import Mathlib

/-!
Verification of the frequency-domain modeling routines of the
`python_models` repository: polynomial and transfer-function algebra
(`classical_controller.py`), state-space frequency response
(`modern_contoller.py`), and the passive-isolator model library
(`multi_sas_attenuation.py`).

Coefficient sequences are modelled as lists (highest degree first, as in
numpy), real scalars as `ℝ` (or `ℚ` where the algebra is exact), complex
frequency responses as `ℂ`.
-/

namespace PyModels

/-! ## Polynomial algebra (numpy `polymul` / `polyadd`)

`np.polymul p q` is coefficient convolution; `np.polyadd p q` pads the
shorter sequence with leading zeros (right-alignment) and sums
coefficient-wise. Coefficients are stored highest degree first. -/

/-- Convolution of coefficient sequences, as computed by `np.polymul`:
the k-th output coefficient is the sum of products of coefficients whose
indices add to k, and the output length is `len p + len q - 1`. -/
def polymul (p q : List ℚ) : List ℚ :=
  (List.range (p.length + q.length - 1)).map fun k =>
    ∑ i ∈ Finset.range (k + 1), p.getD i 0 * q.getD (k - i) 0

/-- Pad a coefficient list with leading zeros up to length `n`. -/
def padLeft (p : List ℚ) (n : ℕ) : List ℚ :=
  List.replicate (n - p.length) 0 ++ p

/-- Right-aligned coefficient-wise sum, as computed by `np.polyadd`. -/
def polyadd (p q : List ℚ) : List ℚ :=
  List.zipWith (fun a b => a + b)
    (padLeft p (max p.length q.length)) (padLeft q (max p.length q.length))

/-! ## Transfer-function algebra (`classical_controller.py`) -/

/-- `tf_series` from `classical_controller.py`: series composition of two
transfer functions multiplies numerators and denominators. -/
def tf_series (num1 den1 num2 den2 : List ℚ) : List ℚ × List ℚ :=
  (polymul num1 num2, polymul den1 den2)

/-- `tf_feedback` from `classical_controller.py`: unity-feedback closed
loop `T = L/(1+L)`: numerator unchanged, denominator `polyadd den num`. -/
def tf_feedback (num_ol den_ol : List ℚ) : List ℚ × List ℚ :=
  (num_ol, polyadd den_ol num_ol)

/-! Basic facts about `polymul` with the unit polynomial `[1]`. -/

lemma polymul_one_right (p : List ℚ) : polymul p [1] = p := by
  unfold polymul
  apply List.ext_getElem
  · simp
  · intro k hk hk'
    simp only [List.getElem_map, List.getElem_range]
    rw [Finset.sum_eq_single k]
    · have hkp : k < p.length := by simpa using hk
      simp [List.getD_eq_getElem?_getD, List.getElem?_eq_getElem hkp]
    · intro i hi hik
      have hlt : k - i ≥ 1 := by
        have : i < k + 1 := Finset.mem_range.mp hi
        omega
      have hz : ([(1 : ℚ)]).getD (k - i) 0 = 0 := by
        rw [List.getD_eq_getElem?_getD, List.getElem?_eq_none (by simp; omega)]
        rfl
      rw [hz, mul_zero]
    · intro h
      exact absurd (Finset.self_mem_range_succ k) h

/-- Claim C4: for every transfer function `(num, den)` with nonempty
numerator and denominator coefficient lists, series composition with the
identity transfer function `([1], [1])` returns the transfer function
unchanged. -/
theorem tf_series_identity (num den : List ℚ) (hn : num ≠ []) (hd : den ≠ []) :
    tf_series num den [1] [1] = (num, den) := by
  unfold tf_series
  rw [polymul_one_right, polymul_one_right]

/-- Witness for C4 at the concrete plant `num = [25]`, `den = [1, 3, 25]`. -/
theorem tf_series_identity_witness :
    ([(25 : ℚ)] ≠ [] ∧ [(1 : ℚ), 3, 25] ≠ []) ∧
      tf_series [(25 : ℚ)] [1, 3, 25] [1] [1] = ([25], [1, 3, 25]) :=
  ⟨⟨by decide, by decide⟩, tf_series_identity [25] [1, 3, 25] (by decide) (by decide)⟩

/-- Claim C2: `tf_feedback` applied to the open loop `num = [25]`,
`den = [1, 3, 25]` returns the closed-loop pair `([25], [1, 3, 50])`, and
in general returns the numerator unchanged together with the right-aligned
coefficient sum `polyadd den num`. -/
theorem tf_feedback_concrete :
    tf_feedback [(25 : ℚ)] [1, 3, 25] = ([25], [1, 3, 50]) ∧
      ∀ num den : List ℚ, tf_feedback num den = (num, polyadd den num) := by
  constructor
  · norm_num [tf_feedback, polyadd, padLeft, List.replicate]
  · intro num den
    rfl

/-! ## Isolator model library (`multi_sas_attenuation.py`)

Each model is a closed-form complex frequency response; the cascade
helpers start from `np.ones_like(w)` and multiply in one stage per listed
resonance frequency. -/

open Complex in
/-- `H_ip_basic` from `multi_sas_attenuation.py`:
`H(w) = [w0^2 (1 + i phi) + beta w^2] / [w0^2 (1 + i phi) - w^2]` with
`w0 = 2 pi f0`. -/
noncomputable def H_ip_basic (w : ℝ) (f0 beta phi : ℝ) : ℂ :=
  let w0 : ℝ := 2 * Real.pi * f0
  ((w0 : ℂ) ^ 2 * (1 + I * (phi : ℂ)) + (beta : ℂ) * (w : ℂ) ^ 2) /
    ((w0 : ℂ) ^ 2 * (1 + I * (phi : ℂ)) - (w : ℂ) ^ 2)

open Complex in
/-- `H_ip_countermass` from `multi_sas_attenuation.py`: same structure as
`H_ip_basic` with the percussion parameter renamed `beta -> gamma`. -/
noncomputable def H_ip_countermass (w : ℝ) (f0 gamma phi : ℝ) : ℂ :=
  let w0 : ℝ := 2 * Real.pi * f0
  ((w0 : ℂ) ^ 2 * (1 + I * (phi : ℂ)) + (gamma : ℂ) * (w : ℂ) ^ 2) /
    ((w0 : ℂ) ^ 2 * (1 + I * (phi : ℂ)) - (w : ℂ) ^ 2)

open Complex in
/-- `H_gas_single` from `multi_sas_attenuation.py`:
`H(w) = [w0^2 (1 + i phi) + (m/M) w^2] / [w0^2 (1 + i phi) - w^2 + i (gamma/M) w]`. -/
noncomputable def H_gas_single (w : ℝ) (f0 M m phi gamma : ℝ) : ℂ :=
  let w0 : ℝ := 2 * Real.pi * f0
  ((w0 : ℂ) ^ 2 * (1 + I * (phi : ℂ)) + ((m / M : ℝ) : ℂ) * (w : ℂ) ^ 2) /
    ((w0 : ℂ) ^ 2 * (1 + I * (phi : ℂ)) - (w : ℂ) ^ 2 + I * ((gamma / M : ℝ) : ℂ) * (w : ℂ))

/-- `H_gas_cascade` from `multi_sas_attenuation.py`: start from the
all-ones sequence and multiply element-wise one `H_gas_single` evaluation
per listed resonance frequency. -/
noncomputable def H_gas_cascade (w : List ℝ) (f0_list : List ℝ) (M m phi gamma : ℝ) : List ℂ :=
  f0_list.foldl
    (fun H f0 => List.zipWith (fun a b => a * b) H (w.map fun wi => H_gas_single wi f0 M m phi gamma))
    (w.map fun _ => 1)

open Complex in
/-- `H_pend_single` from `multi_sas_attenuation.py`:
`H(w) = w0^2 / (w0^2 - w^2 + i w w0 / Q)` with `w0 = 2 pi f0`. -/
noncomputable def H_pend_single (w : ℝ) (f0 Q : ℝ) : ℂ :=
  let w0 : ℝ := 2 * Real.pi * f0
  ((w0 : ℂ) ^ 2) / ((w0 : ℂ) ^ 2 - (w : ℂ) ^ 2 + I * (w : ℂ) * (w0 : ℂ) / (Q : ℂ))

/-- `H_pend_cascade` from `multi_sas_attenuation.py`: start from the
all-ones sequence and multiply element-wise one `H_pend_single`
evaluation per listed resonance frequency. -/
noncomputable def H_pend_cascade (w : List ℝ) (f0_list : List ℝ) (Q : ℝ) : List ℂ :=
  f0_list.foldl
    (fun H f0 => List.zipWith (fun a b => a * b) H (w.map fun wi => H_pend_single wi f0 Q))
    (w.map fun _ => 1)

/-- The pendulum cascade fold, started from any pointwise sequence
`w.map g`, multiplies in the per-stage responses pointwise. -/
lemma H_pend_cascade_foldl (w : List ℝ) (f0_list : List ℝ) (Q : ℝ) (g : ℝ → ℂ) :
    f0_list.foldl
        (fun H f0 => List.zipWith (fun a b => a * b) H (w.map fun wi => H_pend_single wi f0 Q))
        (w.map g)
      = w.map fun wi => g wi * (f0_list.map fun f0 => H_pend_single wi f0 Q).prod := by
  induction f0_list generalizing g with
  | nil => simp
  | cons f0 rest ih =>
    rw [List.foldl_cons, List.zipWith_map, List.zipWith_same]
    rw [ih fun wi => g wi * H_pend_single wi f0 Q]
    simp [Function.comp, mul_assoc]

/-- Claim C5: cascading `N ≥ 1` identical horizontal-pendulum stages at
the same resonance gives, at each grid point, the single-stage complex
response raised to the `N`-th power, so the magnitude is `|H|^N`
pointwise. -/
theorem H_pend_cascade_replicate (w : List ℝ) (f0 Q : ℝ) (N : ℕ) (hN : 1 ≤ N) :
    H_pend_cascade w (List.replicate N f0) Q
        = w.map (fun wi => H_pend_single wi f0 Q ^ N) ∧
      (H_pend_cascade w (List.replicate N f0) Q).map Complex.abs
        = w.map fun wi => Complex.abs (H_pend_single wi f0 Q) ^ N := by
  have h1 : H_pend_cascade w (List.replicate N f0) Q
      = w.map fun wi => H_pend_single wi f0 Q ^ N := by
    unfold H_pend_cascade
    rw [H_pend_cascade_foldl w (List.replicate N f0) Q fun _ => 1]
    simp [List.map_replicate, List.prod_replicate]
  refine ⟨h1, ?_⟩
  rw [h1, List.map_map]
  refine List.map_congr_left fun wi _ => ?_
  simp [Function.comp, map_pow]

/-- Witness for C5 on the one-point grid `[1]` with `f0 = 1`, `Q = 1`,
`N = 2`. -/
theorem H_pend_cascade_replicate_witness :
    1 ≤ 2 ∧
      (H_pend_cascade [1] (List.replicate 2 (1 : ℝ)) 1
          = [(1 : ℝ)].map (fun wi => H_pend_single wi 1 1 ^ 2) ∧
        (H_pend_cascade [1] (List.replicate 2 (1 : ℝ)) 1).map Complex.abs
          = [(1 : ℝ)].map fun wi => Complex.abs (H_pend_single wi 1 1) ^ 2) :=
  ⟨by norm_num, H_pend_cascade_replicate [1] 1 1 2 (by norm_num)⟩

/-- Claim C6: both cascade helpers applied to an empty list of resonance
frequencies return the all-ones complex sequence (one `1` per grid
point). -/
theorem cascade_nil_ones (w : List ℝ) (Q M m phi gamma : ℝ) :
    H_pend_cascade w [] Q = w.map (fun _ => (1 : ℂ)) ∧
      H_gas_cascade w [] M m phi gamma = w.map fun _ => (1 : ℂ) :=
  ⟨rfl, rfl⟩

lemma neg_add_I_ne_zero : ((-999999 : ℂ) + 20 * Complex.I) ≠ 0 := by
  intro h
  have h' := congrArg Complex.re h
  simp [Complex.add_re, Complex.mul_re, Complex.I_re, Complex.I_im] at h'

/-- At `w = 1000 w0` with `f0 = 0.5` and `Q = 50`, the pendulum response
reduces to the explicit complex number `(-999999 + 20 i)⁻¹`. -/
lemma H_pend_single_at_1000w0 :
    H_pend_single (1000 * (2 * Real.pi * 0.5)) 0.5 50
      = ((-999999 : ℂ) + 20 * Complex.I)⁻¹ := by
  have ha : ((2 * Real.pi * 0.5 : ℝ) : ℂ) ≠ 0 := by
    have h : (2 * Real.pi * 0.5) = Real.pi := by ring
    simp [h, Real.pi_ne_zero]
  simp only [H_pend_single]
  rw [eq_comm]
  apply inv_eq_of_mul_eq_one_right
  rw [mul_div_assoc']
  rw [div_eq_one_iff_eq]
  · push_cast
    ring
  · intro h
    apply ha
    have h2 : (((2 * Real.pi * 0.5 : ℝ) : ℂ)) ^ 2 * ((-999999 : ℂ) + 20 * Complex.I) = 0 := by
      rw [← h]
      push_cast
      ring
    rcases mul_eq_zero.mp h2 with h3 | h3
    · exact pow_eq_zero_iff (n := 2) (by norm_num) |>.mp h3
    · exact absurd h3 neg_add_I_ne_zero

/-- Claim C8: for the horizontal pendulum with `f0 = 0.5` Hz and `Q = 50`
(`w0 = 2 pi f0`), evaluated at `w = 1000 w0`, the magnitude `|H(w)|` is
within 1% relative tolerance of `(w0/w)^2`. -/
theorem H_pend_highfreq_asymptote :
    |Complex.abs (H_pend_single (1000 * (2 * Real.pi * 0.5)) 0.5 50)
        - ((2 * Real.pi * 0.5) / (1000 * (2 * Real.pi * 0.5))) ^ 2|
      ≤ 0.01 * ((2 * Real.pi * 0.5) / (1000 * (2 * Real.pi * 0.5))) ^ 2 := by
  have hpi : (2 * Real.pi * 0.5) = Real.pi := by ring
  have ht : ((2 * Real.pi * 0.5) / (1000 * (2 * Real.pi * 0.5))) ^ 2 = 1 / 1000000 := by
    rw [hpi, mul_comm, div_mul_eq_div_div, div_self Real.pi_ne_zero]
    norm_num
  rw [ht]
  have habs : Complex.abs ((-999999 : ℂ) + 20 * Complex.I) = Real.sqrt 999998000401 := by
    rw [Complex.abs_apply, Complex.normSq_apply]
    simp only [Complex.add_re, Complex.add_im, Complex.mul_re, Complex.mul_im,
      Complex.I_re, Complex.I_im]
    norm_num
  have hmag : Complex.abs (H_pend_single (1000 * (2 * Real.pi * 0.5)) 0.5 50)
      = (Real.sqrt 999998000401)⁻¹ := by
    rw [H_pend_single_at_1000w0, map_inv₀, habs]
  rw [hmag]
  have hs1 : (999999 : ℝ) ≤ Real.sqrt 999998000401 := by
    rw [Real.le_sqrt (by norm_num) (by norm_num)]
    norm_num
  have hs2 : Real.sqrt 999998000401 ≤ 1000000 := by
    rw [Real.sqrt_le_iff]
    norm_num
  have hpos : (0 : ℝ) < Real.sqrt 999998000401 := lt_of_lt_of_le (by norm_num) hs1
  have hi1 : (Real.sqrt 999998000401)⁻¹ ≤ (999999 : ℝ)⁻¹ :=
    inv_anti₀ (by norm_num) hs1
  have hi2 : ((1000000 : ℝ))⁻¹ ≤ (Real.sqrt 999998000401)⁻¹ :=
    inv_anti₀ hpos hs2
  have hb : ((999999 : ℝ))⁻¹ ≤ 1 / 1000000 + 0.01 * (1 / 1000000) := by norm_num
  rw [abs_le]
  constructor <;> nlinarith

/-- Claim C10: the two inverted-pendulum variants compute the identical
function of `(w, f0, coupling, phi)`; they differ only in parameter
naming and default values. -/
theorem H_ip_basic_eq_countermass (w f0 c phi : ℝ) :
    H_ip_basic w f0 c phi = H_ip_countermass w f0 c phi := rfl

/-! ## Bode evaluator (`bode_mag_phase` in `classical_controller.py`)

`scipy.signal.freqs(num, den, worN=w)` evaluates the rational transfer
function at `s = j w` by Horner polynomial evaluation; the magnitude is
`20 log10 |h|` and the phase is `np.unwrap(np.angle(h)) * 180 / pi`. -/

/-- Horner evaluation of a (highest-degree-first) real coefficient list at
a complex point, as `np.polyval`. -/
noncomputable def polyval (p : List ℝ) (s : ℂ) : ℂ :=
  p.foldl (fun acc c => acc * s + (c : ℂ)) 0

/-- `scipy.signal.freqs`: the response `polyval num (j w) / polyval den (j w)`
at each grid point. -/
noncomputable def freqs (num den : List ℝ) (w : List ℝ) : List ℂ :=
  w.map fun wi : ℝ => polyval num (Complex.I * (wi : ℂ)) / polyval den (Complex.I * (wi : ℂ))

/-- Floating-point style modulus with the sign of the divisor, as
`np.mod`: `fmod x y = x - y * floor (x / y)`. -/
noncomputable def fmod (x y : ℝ) : ℝ := x - y * ⌊x / y⌋

/-- Per-step phase correction of `np.unwrap` (default `discont = pi`,
`period = 2 pi`) applied to a single difference `d` of consecutive
phases. -/
noncomputable def phaseCorrect (d : ℝ) : ℝ :=
  if |d| < Real.pi then 0
  else
    let ddmod := fmod (d + Real.pi) (2 * Real.pi) - Real.pi
    let ddmod' := if ddmod = -Real.pi ∧ 0 < d then Real.pi else ddmod
    ddmod' - d

/-- Tail of `np.unwrap`: walk the remaining samples carrying the previous
raw sample and the accumulated correction (the running `cumsum` of
per-step corrections). -/
noncomputable def unwrapAux (prev acc : ℝ) : List ℝ → List ℝ
  | [] => []
  | x :: xs =>
    let acc' := acc + phaseCorrect (x - prev)
    (x + acc') :: unwrapAux x acc' xs

/-- `np.unwrap` with default arguments: the first sample is kept and each
later sample is shifted by the accumulated multiple-of-`2 pi` correction. -/
noncomputable def unwrap : List ℝ → List ℝ
  | [] => []
  | x :: xs => x :: unwrapAux x 0 xs

/-- `bode_mag_phase` from `classical_controller.py`: evaluate the
transfer function on the grid, then return
`(20 log10 |h|, unwrap (angle h) * 180 / pi)`. -/
noncomputable def bode_mag_phase (num den : List ℝ) (w : List ℝ) : List ℝ × List ℝ :=
  let h := freqs num den w
  (h.map fun z => 20 * Real.logb 10 (Complex.abs z),
    (unwrap (h.map Complex.arg)).map fun x => x * 180 / Real.pi)

lemma unwrap_cons (x : ℝ) (xs : List ℝ) : unwrap (x :: xs) = x :: unwrapAux x 0 xs := rfl

lemma unwrapAux_zero : ∀ l : List ℝ, (∀ x ∈ l, x = 0) → unwrapAux 0 0 l = l := by
  intro l
  induction l with
  | nil => intro _; rfl
  | cons x xs ih =>
    intro h
    have hx : x = 0 := h x (List.mem_cons_self x xs)
    subst hx
    have hcor : phaseCorrect ((0 : ℝ) - 0) = 0 := by
      simp [phaseCorrect, Real.pi_pos]
    unfold unwrapAux
    simp only [hcor, add_zero, zero_add]
    exact congrArg _ (ih fun y hy => h y (List.mem_cons_of_mem 0 hy))

lemma unwrap_zeros (w : List ℝ) :
    unwrap (w.map fun _ => (0 : ℝ)) = w.map fun _ => (0 : ℝ) := by
  cases w with
  | nil => rfl
  | cons a as =>
    simp only [List.map_cons]
    rw [unwrap_cons]
    exact congrArg _ (unwrapAux_zero _ (by simp))

/-- Claim C7: on every non-empty frequency grid, the Bode evaluator
applied to the constant unity response (numerator `[1]`, denominator
`[1]`, so `h = 1` at every grid point) returns all-zero magnitude (dB)
and all-zero phase (degrees). -/
theorem bode_unity_zero (w : List ℝ) (hw : w ≠ []) :
    bode_mag_phase [1] [1] w = (w.map fun _ => 0, w.map fun _ => 0) := by
  have hfreqs : freqs [1] [1] w = w.map fun _ => (1 : ℂ) := by
    unfold freqs
    refine List.map_congr_left fun wi _ => ?_
    simp [polyval]
  have hmag : (w.map fun _ => (1 : ℂ)).map (fun z => 20 * Real.logb 10 (Complex.abs z))
      = w.map fun _ => (0 : ℝ) := by
    rw [List.map_map]
    refine List.map_congr_left fun wi _ => ?_
    simp [Function.comp]
  have hargs : (w.map fun _ => (1 : ℂ)).map Complex.arg = w.map fun _ => (0 : ℝ) := by
    rw [List.map_map]
    refine List.map_congr_left fun wi _ => ?_
    simp [Function.comp, Complex.arg_one]
  have hph : ((unwrap ((w.map fun _ => (1 : ℂ)).map Complex.arg)).map fun x => x * 180 / Real.pi)
      = w.map fun _ => (0 : ℝ) := by
    rw [hargs, unwrap_zeros, List.map_map]
    refine List.map_congr_left fun wi _ => ?_
    simp [Function.comp]
  simp only [bode_mag_phase]
  rw [hfreqs, hmag, hph]

/-- Witness for C7 on the one-point grid `[1]`. -/
theorem bode_unity_zero_witness :
    ([(1 : ℝ)] ≠ []) ∧
      bode_mag_phase [1] [1] [(1 : ℝ)] = ([(1 : ℝ)].map fun _ => 0, [(1 : ℝ)].map fun _ => 0) :=
  ⟨by simp, bode_unity_zero [1] (by simp)⟩

/-! ## State-space frequency response (`modern_contoller.py`)

The demo evaluates `G = C (j w I - A)⁻¹ B + D` at each angular frequency
of the grid, and for closed-loop analysis adjusts the output matrix as
`Ccl = C - D K C1`. -/

/-- Per-frequency state-space response `C (j w I - A)⁻¹ B + D`, as in the
loop body of `demo_statespace_to_tf`. -/
noncomputable def ss_response {n m p : ℕ} (A : Matrix (Fin n) (Fin n) ℂ)
    (B : Matrix (Fin n) (Fin m) ℂ) (Cm : Matrix (Fin p) (Fin n) ℂ)
    (D : Matrix (Fin p) (Fin m) ℂ) (w : ℝ) : Matrix (Fin p) (Fin m) ℂ :=
  Cm * ((Complex.I * (w : ℂ)) • (1 : Matrix (Fin n) (Fin n) ℂ) - A)⁻¹ * B + D

/-- State-space frequency response collected over a frequency grid. -/
noncomputable def frequency_response {n m p : ℕ} (A : Matrix (Fin n) (Fin n) ℂ)
    (B : Matrix (Fin n) (Fin m) ℂ) (Cm : Matrix (Fin p) (Fin n) ℂ)
    (D : Matrix (Fin p) (Fin m) ℂ) (w_grid : List ℝ) : List (Matrix (Fin p) (Fin m) ℂ) :=
  w_grid.map (ss_response A B Cm D)

/-- Closed-loop output-matrix adjustment `Ccl = C - D K C_feedback` from
`demo_statespace_to_tf`. -/
noncomputable def Ccl_adjust {n m r p : ℕ} (Cm : Matrix (Fin p) (Fin n) ℝ)
    (D : Matrix (Fin p) (Fin m) ℝ) (K : Matrix (Fin m) (Fin r) ℝ)
    (Cfb : Matrix (Fin r) (Fin n) ℝ) : Matrix (Fin p) (Fin n) ℝ :=
  Cm - D * K * Cfb

lemma I_mul_add_one_ne_zero (w : ℝ) : Complex.I * (w : ℂ) + 1 ≠ 0 := by
  intro h
  have h' := congrArg Complex.re h
  simp [Complex.add_re, Complex.mul_re, Complex.I_re, Complex.I_im] at h'

lemma inv_fin_one (a : ℂ) (ha : a ≠ 0) : (!![a])⁻¹ = !![a⁻¹] := by
  apply Matrix.inv_eq_right_inv
  ext i j
  fin_cases i
  fin_cases j
  simp [Matrix.mul_apply, mul_inv_cancel₀ ha, Matrix.one_apply]

lemma ss_response_scalar (w : ℝ) :
    ss_response !![(-1 : ℂ)] !![1] !![1] !![0] w = !![1 / (Complex.I * (w : ℂ) + 1)] := by
  unfold ss_response
  have hM : (Complex.I * (w : ℂ)) • (1 : Matrix (Fin 1) (Fin 1) ℂ) - !![(-1 : ℂ)]
      = !![Complex.I * (w : ℂ) + 1] := by
    ext i j
    fin_cases i
    fin_cases j
    simp [Matrix.smul_apply, Matrix.one_apply]
  rw [hM, inv_fin_one _ (I_mul_add_one_ne_zero w)]
  ext i j
  fin_cases i
  fin_cases j
  simp [Matrix.mul_apply, Matrix.add_apply, one_div]

/-- Claim C1: for the scalar SISO system `A = [[-1]]`, `B = [[1]]`,
`C = [[1]]`, `D = [[0]]`, the state-space frequency response equals
`1/(j w + 1)` at every sampled angular frequency, and at `w = 1` it
equals `0.5 - 0.5 j`. -/
theorem frequency_response_scalar :
    (∀ w_grid : List ℝ, frequency_response !![(-1 : ℂ)] !![1] !![1] !![0] w_grid
        = w_grid.map fun w : ℝ => !![1 / (Complex.I * (w : ℂ) + 1)]) ∧
      ss_response !![(-1 : ℂ)] !![1] !![1] !![0] 1 = !![(0.5 : ℂ) - 0.5 * Complex.I] := by
  constructor
  · intro w_grid
    unfold frequency_response
    exact List.map_congr_left fun w _ => ss_response_scalar w
  · rw [ss_response_scalar 1]
    have hval : (1 : ℂ) / (Complex.I * ((1 : ℝ) : ℂ) + 1) = (0.5 : ℂ) - 0.5 * Complex.I := by
      rw [div_eq_iff (I_mul_add_one_ne_zero 1)]
      push_cast
      ring_nf
      rw [Complex.I_sq]
      ring
    rw [hval]

/-- Claim C9: when `D` is the zero matrix, the closed-loop output-matrix
adjustment `Ccl = C - D K C_feedback` leaves the output matrix unchanged,
for every dimensionally consistent `K` and `C_feedback`. -/
theorem Ccl_adjust_zero_D {n m r p : ℕ} (Cm : Matrix (Fin p) (Fin n) ℝ)
    (K : Matrix (Fin m) (Fin r) ℝ) (Cfb : Matrix (Fin r) (Fin n) ℝ) :
    Ccl_adjust Cm (0 : Matrix (Fin p) (Fin m) ℝ) K Cfb = Cm := by
  unfold Ccl_adjust
  simp

/-! ## Shape-checked frequency response (spec §4.3 and §7)

The repository's source only contains the per-frequency loop inlined in
`demo_statespace_to_tf` with fixed, consistent matrices; the spec's
`frequency_response` routine that validates operand shapes and raises
`DimensionError` has no named counterpart under `src/`, so it is
modelled here from the spec's words. -/

/-- A matrix of unchecked shape: explicit row and column counts plus an
entry function. -/
structure UMat where
  rows : ℕ
  cols : ℕ
  entry : ℕ → ℕ → ℂ

/-- The `DimensionError` of spec §7, reporting the offending operand
shapes `(rows, cols)` of `A`, `B`, `C`, `D`. -/
structure DimensionError where
  shapeA : ℕ × ℕ
  shapeB : ℕ × ℕ
  shapeC : ℕ × ℕ
  shapeD : ℕ × ℕ
deriving DecidableEq

/-- View an unchecked matrix at a given checked shape. -/
noncomputable def UMat.toMatrix (M : UMat) (r c : ℕ) : Matrix (Fin r) (Fin c) ℂ :=
  Matrix.of fun i j => M.entry i.val j.val

/-- Modelled from the spec: the `frequency_response(A, B, C, D, w_grid)`
routine of §4.3 with the shape validation of §7 is absent from `src/`
(the demo inlines the per-frequency solve with fixed matrices), so this
definition follows the spec's words: first check the state-space
dimension invariants (`A` square; `B` rows = `A` rows; `C` columns = `A`
columns; `D` rows = `C` rows; `D` columns = `B` columns) and surface a
`DimensionError` carrying the offending shapes before performing any
per-frequency solve; otherwise, for each grid frequency solve
`(j w I - A) X = B` and collect `Y = C X + D`. -/
noncomputable def frequency_response_checked (A B Cm D : UMat) (w_grid : List ℝ) :
    Except DimensionError (List UMat) :=
  if A.cols ≠ A.rows ∨ B.rows ≠ A.rows ∨ Cm.cols ≠ A.rows ∨
      D.rows ≠ Cm.rows ∨ D.cols ≠ B.cols then
    .error ⟨(A.rows, A.cols), (B.rows, B.cols), (Cm.rows, Cm.cols), (D.rows, D.cols)⟩
  else
    .ok (w_grid.map fun w =>
      ⟨Cm.rows, B.cols, fun i j =>
        if hi : i < Cm.rows then
          if hj : j < B.cols then
            ss_response (A.toMatrix A.rows A.rows) (B.toMatrix A.rows B.cols)
              (Cm.toMatrix Cm.rows A.rows) (D.toMatrix Cm.rows B.cols) w ⟨i, hi⟩ ⟨j, hj⟩
          else 0
        else 0⟩)

/-- Claim C3: calling the checked frequency response with a `B` whose row
count differs from `A`'s row count yields the `DimensionError` (with the
offending shapes) and no output values, before any per-frequency solve. -/
theorem frequency_response_checked_dim_error (A B Cm D : UMat) (w_grid : List ℝ)
    (hB : B.rows ≠ A.rows) :
    frequency_response_checked A B Cm D w_grid
        = .error ⟨(A.rows, A.cols), (B.rows, B.cols), (Cm.rows, Cm.cols), (D.rows, D.cols)⟩ ∧
      ∀ ys, frequency_response_checked A B Cm D w_grid ≠ .ok ys := by
  have herr : frequency_response_checked A B Cm D w_grid
      = .error ⟨(A.rows, A.cols), (B.rows, B.cols), (Cm.rows, Cm.cols), (D.rows, D.cols)⟩ := by
    unfold frequency_response_checked
    rw [if_pos (Or.inr (Or.inl hB))]
  refine ⟨herr, fun ys hok => ?_⟩
  rw [herr] at hok
  exact Except.noConfusion hok

/-- Witness for C3 with a 1-state `A` and a 2-row `B`. -/
theorem frequency_response_checked_dim_error_witness :
    ((UMat.mk 2 1 fun _ _ => 1).rows ≠ (UMat.mk 1 1 fun _ _ => -1).rows) ∧
      (frequency_response_checked (UMat.mk 1 1 fun _ _ => -1) (UMat.mk 2 1 fun _ _ => 1)
          (UMat.mk 1 1 fun _ _ => 1) (UMat.mk 1 1 fun _ _ => 0) [1]
          = .error ⟨(1, 1), (2, 1), (1, 1), (1, 1)⟩ ∧
        ∀ ys, frequency_response_checked (UMat.mk 1 1 fun _ _ => -1) (UMat.mk 2 1 fun _ _ => 1)
          (UMat.mk 1 1 fun _ _ => 1) (UMat.mk 1 1 fun _ _ => 0) [1] ≠ .ok ys) :=
  ⟨by norm_num,
    frequency_response_checked_dim_error (UMat.mk 1 1 fun _ _ => -1)
      (UMat.mk 2 1 fun _ _ => 1) (UMat.mk 1 1 fun _ _ => 1) (UMat.mk 1 1 fun _ _ => 0)
      [1] (by norm_num)⟩

end PyModels
